import Mathlib

/-!
Shallow embedding of the AT32F421 bare-metal template's event-driven core:
the main `while(1)` loop of `main.c` (wake counting, peripheral-flag check,
overflow counting, statistics reporting), the `print_runtime_stats` reporter,
the `usart_put_uint` decimal renderer of `usart.c`, the `crm_config` clock
bring-up of `crm.c`, and the `system_init` drain idiom (`__SEV();  __WFE();`).

Machine integers are modelled as `Nat` with explicit reduction modulo `2^32`
exactly where the C code performs 32-bit unsigned arithmetic.
-/

namespace AT32F421

/-- Modulus of `uint32_t` arithmetic, `2^32`. -/
def U32 : Nat := 4294967296

/-- C unsigned 32-bit subtraction `a - b` (wraparound semantics), for
`a, b < U32`. -/
def usub32 (a b : Nat) : Nat := (a + U32 - b) % U32

/-- Bit mask `TMR_ISTS_OVFIF` (bit 0 of `TMR14->ists`), from `timer.h`. -/
def TMR_ISTS_OVFIF : Nat := 1

/-- The `uint32_t` value of `~TMR_ISTS_OVFIF`, i.e. `0xFFFFFFFE`. -/
def NOT_OVFIF : Nat := 4294967294

/-- One emitted statistics line, reduced to its three numeric quantities:
the event count, the wake count, and the optional efficiency percentage
(`none` when the field is omitted). -/
structure Report where
  events : Nat
  wakes : Nat
  eff : Option Nat
deriving DecidableEq

/-- Embedding of `print_runtime_stats` from `main.c`: given the current
`timer_overflow_count`, `wfe_wake_count` and the static `last_print_time`,
returns the updated `last_print_time` and the emitted report, if any.
The guard is the C expression `(current_time - last_print_time) >= 5` in
`uint32_t` arithmetic; the efficiency is
`(timer_overflow_count * 100) / wfe_wake_count` in `uint32_t` arithmetic,
computed only when `wfe_wake_count > 0`. -/
def print_runtime_stats (timer_overflow_count wfe_wake_count last_print_time : Nat) :
    Nat × Option Report :=
  let current_time := timer_overflow_count
  if usub32 current_time last_print_time ≥ 5 then
    let eff : Option Nat :=
      if wfe_wake_count > 0 then
        some (timer_overflow_count * 100 % U32 / wfe_wake_count)
      else none
    (current_time, some ⟨timer_overflow_count, wfe_wake_count, eff⟩)
  else
    (last_print_time, none)

/-- State of the main loop of `main.c`: the two global counters, the static
`last_print_time` of `print_runtime_stats`, the `TMR14->ists` register, and
the list of reports emitted so far. -/
structure SysState where
  timer_overflow_count : Nat
  wfe_wake_count : Nat
  last_print_time : Nat
  ists : Nat
  out : List Report
deriving DecidableEq

/-- Initial state: both counters and the report marker statically
zero-initialized, `TMR14->ists` cleared by `timer_config`, nothing emitted. -/
def initState : SysState := ⟨0, 0, 0, 0, []⟩

/-- One iteration of the `while(1)` loop in `main`: clear the NVIC pending
bit, `__WFE()` (the wake happens; `hw` is the set of `ists` bits the hardware
raised during this window), increment `wfe_wake_count`, and if
`TMR14->ists & TMR_ISTS_OVFIF` is set, clear that flag
(`ists &= ~TMR_ISTS_OVFIF`), increment `timer_overflow_count` and call
`print_runtime_stats`. -/
def loopIter (s : SysState) (hw : Nat) : SysState :=
  let wwc := (s.wfe_wake_count + 1) % U32
  let ists := s.ists ||| hw
  if ists &&& TMR_ISTS_OVFIF ≠ 0 then
    let toc := (s.timer_overflow_count + 1) % U32
    let pr := print_runtime_stats toc wwc s.last_print_time
    ⟨toc, wwc, pr.1, ists &&& NOT_OVFIF, s.out ++ pr.2.toList⟩
  else
    { s with wfe_wake_count := wwc, ists := ists }

/-- Run of the main loop over a finite trace of wake windows. -/
def run (s : SysState) : List Nat → SysState
  | [] => s
  | h :: t => run (loopIter s h) t

/-- Run of `n` loop iterations in which every wake is a genuine periodic
event (the hardware sets `TMR_ISTS_OVFIF` in every window). -/
def genuineRun (n : Nat) : SysState := run initState (List.replicate n 1)

/- ### Basic lemmas about the loop -/

theorem run_append (s : SysState) (t₁ t₂ : List Nat) :
    run s (t₁ ++ t₂) = run (run s t₁) t₂ := by
  induction t₁ generalizing s with
  | nil => rfl
  | cons h t ih => simp [run, ih]

theorem loopIter_genuine (s : SysState) (h : s.ists = 0) :
    loopIter s 1 =
      ⟨(s.timer_overflow_count + 1) % U32, (s.wfe_wake_count + 1) % U32,
        (print_runtime_stats ((s.timer_overflow_count + 1) % U32)
          ((s.wfe_wake_count + 1) % U32) s.last_print_time).1, 0,
        s.out ++ (print_runtime_stats ((s.timer_overflow_count + 1) % U32)
          ((s.wfe_wake_count + 1) % U32) s.last_print_time).2.toList⟩ := by
  simp only [loopIter, h]
  norm_num [TMR_ISTS_OVFIF, NOT_OVFIF]

theorem loopIter_spurious (s : SysState) (h : s.ists = 0) :
    loopIter s 0 = { s with wfe_wake_count := (s.wfe_wake_count + 1) % U32 } := by
  simp only [loopIter, h]
  norm_num [TMR_ISTS_OVFIF]

theorem U32_pos : 0 < U32 := by norm_num [U32]

/-- Counters after a run over a genuine/spurious trace: the wake counter
advances by the length of the trace, the overflow counter by the number of
genuine windows, both modulo `2^32`; the overflow flag is left clear. -/
theorem run_counts (t : List Nat) (s : SysState)
    (ht : ∀ h ∈ t, h = 0 ∨ h = 1) (hi : s.ists = 0)
    (hw : s.wfe_wake_count < U32) (hc : s.timer_overflow_count < U32) :
    (run s t).wfe_wake_count = (s.wfe_wake_count + t.length) % U32 ∧
    (run s t).timer_overflow_count = (s.timer_overflow_count + t.count 1) % U32 ∧
    (run s t).ists = 0 := by
  induction t generalizing s with
  | nil =>
    simp [run, Nat.mod_eq_of_lt hw, Nat.mod_eq_of_lt hc, hi]
  | cons h t ih =>
    have hh := ht h (List.mem_cons_self h t)
    have ht' : ∀ x ∈ t, x = 0 ∨ x = 1 := fun x hx => ht x (List.mem_cons_of_mem h hx)
    rcases hh with h0 | h1
    · subst h0
      rw [run, loopIter_spurious s hi]
      have := ih { s with wfe_wake_count := (s.wfe_wake_count + 1) % U32 }
        ht' hi (Nat.mod_lt _ U32_pos) hc
      refine ⟨?_, ?_, this.2.2⟩
      · rw [this.1]
        simp [List.length_cons, Nat.mod_add_mod]
        ring_nf
      · rw [this.2.1]
        simp [List.count_cons]
    · subst h1
      rw [run, loopIter_genuine s hi]
      have := ih ⟨(s.timer_overflow_count + 1) % U32, (s.wfe_wake_count + 1) % U32,
        (print_runtime_stats ((s.timer_overflow_count + 1) % U32)
          ((s.wfe_wake_count + 1) % U32) s.last_print_time).1, 0,
        s.out ++ (print_runtime_stats ((s.timer_overflow_count + 1) % U32)
          ((s.wfe_wake_count + 1) % U32) s.last_print_time).2.toList⟩
        ht' rfl (Nat.mod_lt _ U32_pos) (Nat.mod_lt _ U32_pos)
      refine ⟨?_, ?_, this.2.2⟩
      · rw [this.1]
        simp [List.length_cons, Nat.mod_add_mod]
        ring_nf
      · rw [this.2.1]
        simp only [List.count_cons, beq_self_eq_true, if_true]
        rw [Nat.mod_add_mod]
        ring_nf

theorem usub32_of_le (a b : Nat) (hba : b ≤ a) (ha : a < U32) :
    usub32 a b = a - b := by
  unfold usub32
  have h1 : a + U32 - b = U32 + (a - b) := by omega
  rw [h1, Nat.add_mod_left]
  exact Nat.mod_eq_of_lt (lt_of_le_of_lt (Nat.sub_le a b) ha)

theorem prs_emit (m w lpt : Nat) (hle : lpt ≤ m) (hm : m < U32) (hge : 5 ≤ m - lpt) :
    print_runtime_stats m w lpt =
      (m, some ⟨m, w, if w > 0 then some (m * 100 % U32 / w) else none⟩) := by
  have h := usub32_of_le m lpt hle hm
  simp only [print_runtime_stats, h]
  rw [if_pos hge]

theorem prs_skip (m w lpt : Nat) (hle : lpt ≤ m) (hm : m < U32) (hlt : m - lpt < 5) :
    print_runtime_stats m w lpt = (lpt, none) := by
  have h := usub32_of_le m lpt hle hm
  simp only [print_runtime_stats, h]
  rw [if_neg (by omega)]

/-- Run consisting only of spurious wakes: only `wfe_wake_count` advances. -/
theorem spurious_run (n : Nat) (s : SysState) (h0 : s.ists = 0)
    (h1 : s.wfe_wake_count < U32) :
    run s (List.replicate n 0) =
      { s with wfe_wake_count := (s.wfe_wake_count + n) % U32 } := by
  induction n generalizing s with
  | zero =>
    simp [run, Nat.mod_eq_of_lt h1]
  | succ n ih =>
    rw [List.replicate_succ, run, loopIter_spurious s h0]
    rw [ih _ (by simp [h0]) (Nat.mod_lt _ U32_pos)]
    have harg : s.wfe_wake_count + 1 + n = s.wfe_wake_count + (n + 1) := by omega
    simp [Nat.mod_add_mod, harg]

/-- Report emitted by the genuine-only run at its `k`-th emission (counts
`5, 10, …`): both counters read `5 * (k + 1)` and the efficiency is computed
from them in 32-bit arithmetic. -/
def genuineReport (k : Nat) : Report :=
  ⟨5 * (k + 1), 5 * (k + 1), some (5 * (k + 1) * 100 % U32 / (5 * (k + 1)))⟩

/-- Characterization of the genuine-only run: after `n` genuine events both
counters read `n`, the report marker is the largest multiple of `5` not
exceeding `n`, the overflow flag is clear, and reports have been emitted at
event counts `5, 10, …, 5 * (n / 5)` exactly. -/
theorem genuineRun_spec (n : Nat) (hn : n < U32) :
    genuineRun n = ⟨n, n, 5 * (n / 5), 0, (List.range (n / 5)).map genuineReport⟩ := by
  induction n with
  | zero => simp [genuineRun, run, initState]
  | succ n ih =>
    have hn' : n < U32 := lt_trans (Nat.lt_succ_self n) hn
    have hsplit : genuineRun (n + 1) = loopIter (genuineRun n) 1 := by
      rw [genuineRun, List.replicate_succ', run_append]
      rfl
    have hmod : (n + 1) % U32 = n + 1 := Nat.mod_eq_of_lt hn
    have hle : 5 * (n / 5) ≤ n + 1 := by omega
    rw [hsplit, ih hn', loopIter_genuine _ rfl]
    simp only [hmod]
    by_cases hd : (n + 1) % 5 = 0
    · have hev : 5 ≤ n + 1 - 5 * (n / 5) := by omega
      rw [prs_emit (n + 1) (n + 1) (5 * (n / 5)) hle hn hev]
      have hq : (n + 1) / 5 = n / 5 + 1 := by omega
      have he : 5 * (n / 5 + 1) = n + 1 := by omega
      rw [SysState.mk.injEq]
      refine ⟨rfl, rfl, by omega, rfl, ?_⟩
      rw [hq, List.range_succ, List.map_append]
      simp only [List.map_cons, List.map_nil, Option.toList_some]
      congr 2
      rw [genuineReport, he]
      simp [Nat.succ_pos]
    · have hlt : n + 1 - 5 * (n / 5) < 5 := by omega
      rw [prs_skip (n + 1) (n + 1) (5 * (n / 5)) hle hn hlt]
      have hq : (n + 1) / 5 = n / 5 := by omega
      rw [SysState.mk.injEq]
      exact ⟨rfl, rfl, by omega, rfl, by rw [hq]; simp⟩

/- ### The decimal renderer of `usart.c` -/

/-- Embedding of the digit-conversion loop of `usart_put_uint`
(`while (value > 0) { *(--ptr) = '0' + (value % 10); value /= 10; }`):
digits are produced least-significant first and prepended, so `acc` plays
the role of the buffer contents to the right of `ptr`. -/
def usart_put_uint_loop (v : Nat) (acc : List Char) : List Char :=
  if h : v = 0 then acc
  else usart_put_uint_loop (v / 10) (Char.ofNat (48 + v % 10) :: acc)
termination_by v
decreasing_by exact Nat.div_lt_self (Nat.pos_of_ne_zero h) (by norm_num)

/-- Embedding of `usart_put_uint` of `usart.c`: the character sequence the
function sends, for input `value`. The zero case writes the single digit
`'0'`; otherwise the loop converts digits in reverse into the buffer. -/
def usart_put_uint (value : Nat) : List Char :=
  if value = 0 then [Char.ofNat 48]
  else usart_put_uint_loop value []

/-- Modelled from the spec: the standard unsigned base-10 rendering — most
significant digit first, no leading zeros, the single character `0` for the
value zero (used as the refinement target for the renderer). -/
def spec_decimal (v : Nat) : List Char :=
  if v = 0 then [Char.ofNat 48]
  else (Nat.digits 10 v).reverse.map (fun d => Char.ofNat (48 + d))

theorem usart_put_uint_loop_eq (v : Nat) (acc : List Char) :
    usart_put_uint_loop v acc =
      ((Nat.digits 10 v).reverse.map (fun d => Char.ofNat (48 + d))) ++ acc := by
  induction v using Nat.strong_induction_on generalizing acc with
  | _ v ih =>
    by_cases h : v = 0
    · subst h
      rw [usart_put_uint_loop]
      simp
    · rw [usart_put_uint_loop, dif_neg h,
        ih (v / 10) (Nat.div_lt_self (Nat.pos_of_ne_zero h) (by norm_num)),
        Nat.digits_def' (by norm_num : (1:Nat) < 10) (Nat.pos_of_ne_zero h)]
      simp

/-- Leading digit of a nonzero value is not the character `0`. -/
theorem usart_put_uint_head_ne_zero (v : Nat) (hv : v ≠ 0) :
    (usart_put_uint v).head? ≠ some (Char.ofNat 48) := by
  have hne : Nat.digits 10 v ≠ [] := Nat.digits_ne_nil_iff_ne_zero.mpr hv
  rcases List.eq_nil_or_concat (Nat.digits 10 v) with hnil | ⟨L, d, hLd⟩
  · exact absurd hnil hne
  · rw [List.concat_eq_append] at hLd
    have hd0 : d ≠ 0 := by
      have h1 := Nat.getLast_digit_ne_zero 10 hv
      have h2 : (Nat.digits 10 v).getLast? = some d := by
        rw [hLd]
        exact List.getLast?_concat _
      rw [List.getLast?_eq_getLast _ hne] at h2
      exact Option.some.inj h2 ▸ h1
    have hmem : d ∈ Nat.digits 10 v := by
      rw [hLd]
      exact List.mem_append_right L (List.mem_singleton_self d)
    have hd10 : d < 10 := Nat.digits_lt_base (by norm_num) hmem
    rw [usart_put_uint, if_neg hv, usart_put_uint_loop_eq, hLd]
    simp only [List.reverse_concat, List.map_cons, List.append_nil, List.head?_cons, ne_eq,
      Option.some.injEq]
    intro hc
    have hpos : 0 < d := Nat.pos_of_ne_zero hd0
    interval_cases d <;> exact absurd hc (by decide)

/- ### Clock bring-up (`crm.c`) and `system_init` (`main.c`) -/

/-- Status codes of `crm_config`, from `crm.h`. -/
inductive CrmStatus where
  | ok
  | errHextTimeout
  | errPllTimeout
  | errSwitchTimeout
deriving DecidableEq

/-- Hardware behaviour the clock bring-up observes: for each polled flag,
the index of the first poll at which it reads set (`none`: never). The
`hextDefined` component records whether the build defines `HEXT_FREQUENCY`
(the option is commented out by default in `crm.h`). -/
structure CrmEnv where
  hextDefined : Bool
  hextStableAt : Option Nat
  pllStableAt : Option Nat
  switchDoneAt : Option Nat

/-- Timeout constant `CRM_HEXT_TIMEOUT` from `crm.h`. -/
def CRM_HEXT_TIMEOUT : Nat := 50000

/-- Timeout constant `CRM_PLL_TIMEOUT` from `crm.h`. -/
def CRM_PLL_TIMEOUT : Nat := 50000

/-- Timeout constant `CRM_SWITCH_TIMEOUT` from `crm.h`. -/
def CRM_SWITCH_TIMEOUT : Nat := 50000

/-- Embedding of the polling loops
`while (!(flag)) { if (--timeout == 0) return ERR; }` of `crm_config`:
the loop succeeds iff the flag first reads set before `tmo` failed polls
have occurred. -/
def waitFlag (firstSetAt : Option Nat) (tmo : Nat) : Bool :=
  match firstSetAt with
  | none => false
  | some k => decide (k < tmo)

/-- Embedding of `crm_config` of `crm.c`: the status it returns under
hardware behaviour `e`. The HEXT wait exists only when `HEXT_FREQUENCY`
is defined; the PLL wait and the clock-switch wait follow in order, each
returning its own error code on timeout. -/
def crm_config (e : CrmEnv) : CrmStatus :=
  if e.hextDefined && !(waitFlag e.hextStableAt CRM_HEXT_TIMEOUT) then .errHextTimeout
  else if !(waitFlag e.pllStableAt CRM_PLL_TIMEOUT) then .errPllTimeout
  else if !(waitFlag e.switchDoneAt CRM_SWITCH_TIMEOUT) then .errSwitchTimeout
  else .ok

/-- The `__SEV()` instruction: unconditionally sets the event latch. -/
def sev (_latch : Bool) : Bool := true

/-- The `__WFE()` instruction acting on the event latch: if the latch is
set, it is consumed and the instruction returns immediately; otherwise the
processor sleeps until an event arrives, which then sets and is consumed
from the latch. First component: whether the processor had to sleep (the
call did not return immediately); second component: the latch afterwards
(always consumed, hence clear). -/
def wfe (latch : Bool) : Bool × Bool := (!latch, false)

/-- The successive steps of `system_init`, in source order. -/
inductive InitAction where
  | crmCfg
  | gpioCfg
  | timerCfg
  | usartCfg
  | setSevonpend
  | sevInstr
  | wfeInstr
deriving DecidableEq

/-- Observable outcome of `system_init`: the (discarded) `crm_config`
status, the sequence of configuration steps performed, the resulting
`SEVONPEND` bit, the event-latch state on exit, and whether the drain's
`__WFE()` had to sleep. -/
structure InitResult where
  status : CrmStatus
  actions : List InitAction
  sevonpend : Bool
  latch : Bool
  drainWfeSlept : Bool
deriving DecidableEq

/-- Embedding of `system_init` of `main.c`: `crm_config()` is called as a
statement (its return value is not consumed), then `gpio_config`,
`timer_config` and `usart_config` run, `SEVONPEND` is set in `SCB->SCR`,
and finally `__SEV()` immediately followed by `__WFE()` drains any stale
event-latch state `latch0` accumulated during configuration. -/
def system_init (e : CrmEnv) (latch0 : Bool) : InitResult :=
  let st := crm_config e
  let latch1 := sev latch0
  let w := wfe latch1
  { status := st,
    actions := [.crmCfg, .gpioCfg, .timerCfg, .usartCfg, .setSevonpend, .sevInstr, .wfeInstr],
    sevonpend := true,
    latch := w.2,
    drainWfeSlept := w.1 }

/- ### Helper lemmas for the claims -/

theorem land_clear_ovfif (x : Nat) : (x &&& NOT_OVFIF) &&& TMR_ISTS_OVFIF = 0 := by
  rw [Nat.land_assoc]
  have h : NOT_OVFIF &&& TMR_ISTS_OVFIF = 0 := by decide
  rw [h]
  simp

/- ### The claims -/

/-- C1: starting from both counters zero, after `N` loop iterations each of
which is woken by a genuine periodic event (the overflow flag set at every
wake) and with no spurious wakes interleaved, both counters read `N` — as
32-bit values, `N mod 2^32`, which is exactly `N` whenever `N < 2^32`. -/
theorem counters_equal_after_genuine_events (N : Nat) :
    (genuineRun N).timer_overflow_count = N % U32 ∧
    (genuineRun N).wfe_wake_count = N % U32 ∧
    (N < U32 →
      (genuineRun N).timer_overflow_count = N ∧ (genuineRun N).wfe_wake_count = N) := by
  have h := run_counts (List.replicate N 1) initState
    (fun x hx => Or.inr (List.eq_of_mem_replicate hx)) rfl U32_pos U32_pos
  have h1 : (genuineRun N).wfe_wake_count = N % U32 := by
    rw [genuineRun, h.1]
    simp [initState]
  have h2 : (genuineRun N).timer_overflow_count = N % U32 := by
    rw [genuineRun, h.2.1]
    simp [List.count_replicate, initState]
  exact ⟨h2, h1, fun hN => ⟨by rw [h2, Nat.mod_eq_of_lt hN], by rw [h1, Nat.mod_eq_of_lt hN]⟩⟩

theorem counters_equal_after_genuine_events_witness :
    (3 : Nat) < U32 ∧
    (genuineRun 3).timer_overflow_count = 3 ∧ (genuineRun 3).wfe_wake_count = 3 :=
  ⟨by decide,
    ((counters_equal_after_genuine_events 3).2.2 (by decide)).1,
    ((counters_equal_after_genuine_events 3).2.2 (by decide)).2⟩

/-- C2 (amended): for every interleaving of genuine and spurious wakes from
the zero state, `wfe_wake_count ≥ timer_overflow_count` holds as long as
fewer than `2^32` wakes have occurred; the raw 32-bit counter values can
violate the inequality once the wake counter wraps while the event counter
has not (the claim's "including across wraparound" part fails — see the
counterexample). -/
theorem wake_count_ge_event_count_before_wrap (t : List Nat)
    (ht : ∀ h ∈ t, h = 0 ∨ h = 1) (hlen : t.length < U32) :
    (run initState t).timer_overflow_count ≤ (run initState t).wfe_wake_count := by
  have h := run_counts t initState ht rfl U32_pos U32_pos
  have hc : t.count 1 ≤ t.length := List.count_le_length 1 t
  rw [h.1, h.2.1]
  simp only [initState, Nat.zero_add]
  rw [Nat.mod_eq_of_lt hlen, Nat.mod_eq_of_lt (lt_of_le_of_lt hc hlen)]
  exact hc

theorem wake_count_ge_event_count_before_wrap_witness :
    (∀ h ∈ ([1, 0, 1] : List Nat), h = 0 ∨ h = 1) ∧ ([1, 0, 1] : List Nat).length < U32 ∧
    (run initState [1, 0, 1]).timer_overflow_count ≤ (run initState [1, 0, 1]).wfe_wake_count :=
  ⟨by decide, by decide,
    wake_count_ge_event_count_before_wrap [1, 0, 1] (by decide) (by decide)⟩

/-- C2 counterexample: after `2^32 - 1` spurious wakes followed by one
genuine event — a reachable interleaving from both counters zero — the
stored wake counter has wrapped to `0` while the event counter reads `1`,
so `wfe_wake_count ≥ timer_overflow_count` fails in this reachable state. -/
theorem wake_count_wraparound_violates_inequality :
    (run initState (List.replicate (U32 - 1) 0 ++ [1])).timer_overflow_count = 1 ∧
    (run initState (List.replicate (U32 - 1) 0 ++ [1])).wfe_wake_count = 0 ∧
    ¬((run initState (List.replicate (U32 - 1) 0 ++ [1])).wfe_wake_count ≥
        (run initState (List.replicate (U32 - 1) 0 ++ [1])).timer_overflow_count) := by
  have hs : run initState (List.replicate (U32 - 1) 0 ++ [1]) = ⟨1, 0, 0, 0, []⟩ := by
    rw [run_append, spurious_run (U32 - 1) initState rfl U32_pos]
    decide
  rw [hs]
  norm_num

/-- C3 (amended): whenever the reporter emits (the throttle condition on the
wraparound difference holds) with `wfe_wake_count > 0`, the emitted
efficiency equals `floor((100 · toc mod 2^32) / wwc)` — the C code computes
the product in 32-bit arithmetic, so it wraps; the value lies in `[0, 100]`
whenever `toc ≤ wwc`; and for every 32-bit wake count it agrees with the
mathematical `floor(100 · toc / wwc)` if and only if `100 · toc < 2^32`. -/
theorem efficiency_field_value (toc wwc lpt : Nat) (hpos : 0 < wwc) (hwwc : wwc < U32)
    (hemit : usub32 toc lpt ≥ 5) :
    (print_runtime_stats toc wwc lpt).2 = some ⟨toc, wwc, some (toc * 100 % U32 / wwc)⟩ ∧
    (toc ≤ wwc → toc * 100 % U32 / wwc ≤ 100) ∧
    (toc * 100 % U32 / wwc = toc * 100 / wwc ↔ toc * 100 < U32) := by
  refine ⟨?_, ?_, ?_⟩
  · simp only [print_runtime_stats, if_pos hemit]
    simp [hpos]
  · intro h
    have h1 : toc * 100 % U32 ≤ wwc * 100 :=
      le_trans (Nat.mod_le _ _) (Nat.mul_le_mul_right 100 h)
    calc toc * 100 % U32 / wwc ≤ wwc * 100 / wwc := Nat.div_le_div_right h1
      _ = 100 := Nat.mul_div_cancel_left 100 hpos
  · constructor
    · intro hmod
      by_contra hge
      push_neg at hge
      have hstep : toc * 100 % U32 + U32 ≤ toc * 100 := by
        simp only [U32] at hge ⊢
        omega
      have h3 : (toc * 100 % U32 / wwc + 1) * wwc ≤ toc * 100 := by
        have h4 : toc * 100 % U32 / wwc * wwc ≤ toc * 100 % U32 := Nat.div_mul_le_self _ _
        have h5 : wwc ≤ U32 := le_of_lt hwwc
        calc (toc * 100 % U32 / wwc + 1) * wwc
            = toc * 100 % U32 / wwc * wwc + wwc := by ring
          _ ≤ toc * 100 % U32 + wwc := Nat.add_le_add_right h4 wwc
          _ ≤ toc * 100 % U32 + U32 := Nat.add_le_add_left h5 _
          _ ≤ toc * 100 := hstep
      have h6 : toc * 100 % U32 / wwc + 1 ≤ toc * 100 / wwc :=
        (Nat.le_div_iff_mul_le hpos).mpr h3
      omega
    · intro h
      rw [Nat.mod_eq_of_lt h]

theorem efficiency_field_value_witness :
    (0 : Nat) < 100 ∧ (100 : Nat) < U32 ∧ usub32 50 45 ≥ 5 ∧
    (print_runtime_stats 50 100 45).2 = some ⟨50, 100, some (50 * 100 % U32 / 100)⟩ ∧
    (50 * 100 % U32 / 100 = 50 * 100 / 100 ↔ 50 * 100 < U32) :=
  ⟨by decide, by decide, by decide,
    (efficiency_field_value 50 100 45 (by decide) (by decide) (by decide)).1,
    (efficiency_field_value 50 100 45 (by decide) (by decide) (by decide)).2.2⟩

/-- C3 counterexample: in the reachable state after 67 108 860 genuine
events, the two counters are equal (so `toc ≤ wwc` and the true
`floor(100 · toc / wwc)` is `100`), yet the report emitted at that event
carries efficiency `35`: the 32-bit product `toc · 100` wrapped. -/
theorem efficiency_product_overflow_cex :
    (genuineRun 67108860).timer_overflow_count = 67108860 ∧
    (genuineRun 67108860).wfe_wake_count = 67108860 ∧
    (genuineRun 67108860).out.getLast? = some ⟨67108860, 67108860, some 35⟩ ∧
    (35 : Nat) ≠ 100 * 67108860 / 67108860 := by
  have h := genuineRun_spec 67108860 (by norm_num [U32])
  rw [h]
  refine ⟨rfl, rfl, ?_, by norm_num⟩
  have hr : (67108860 : Nat) / 5 = 13421772 := by norm_num
  rw [hr, show (13421772 : Nat) = 13421771 + 1 by norm_num, List.range_succ, List.map_append]
  simp only [List.map_cons, List.map_nil]
  rw [List.getLast?_concat]
  decide

/-- C4: with `REPORT_INTERVAL = 5` and the marker starting at `0`: on every
invocation a line is emitted iff the wraparound difference
`current_time - last_report` is at least `5`, the marker becomes
`current_time` exactly on emission and is untouched otherwise; in the
genuine run the reports appear exactly at confirmed-event counts
`5, 10, 15, …` and the marker values of the emitted reports are pairwise
distinct (no marker value is reported twice). -/
theorem report_throttle_schedule (toc wwc lpt N : Nat) (hN : N < U32) :
    ((print_runtime_stats toc wwc lpt).2.isSome ↔ usub32 toc lpt ≥ 5) ∧
    ((print_runtime_stats toc wwc lpt).1 = if usub32 toc lpt ≥ 5 then toc else lpt) ∧
    (genuineRun N).last_print_time = 5 * (N / 5) ∧
    (genuineRun N).out.map Report.events = (List.range (N / 5)).map (fun k => 5 * (k + 1)) ∧
    ((genuineRun N).out.map Report.events).Nodup := by
  have hg := genuineRun_spec N hN
  refine ⟨?_, ?_, ?_, ?_, ?_⟩
  · simp only [print_runtime_stats]
    split_ifs with h <;> simp [h]
  · simp only [print_runtime_stats]
    split_ifs with h <;> rfl
  · rw [hg]
  · rw [hg]
    simp [List.map_map, genuineReport, Function.comp]
  · rw [hg]
    simp only [List.map_map]
    refine List.Nodup.map ?_ (List.nodup_range _)
    intro a b hab
    simp only [Function.comp, genuineReport] at hab
    omega

theorem report_throttle_schedule_witness :
    (12 : Nat) < U32 ∧
    ((print_runtime_stats 7 7 0).2.isSome ↔ usub32 7 0 ≥ 5) ∧
    (genuineRun 12).last_print_time = 5 * (12 / 5) ∧
    ((genuineRun 12).out.map Report.events).Nodup :=
  ⟨by decide,
    (report_throttle_schedule 7 7 0 12 (by decide)).1,
    (report_throttle_schedule 7 7 0 12 (by decide)).2.2.1,
    (report_throttle_schedule 7 7 0 12 (by decide)).2.2.2.2⟩

/-- C5: in every loop iteration, `wfe_wake_count` is incremented exactly
once unconditionally after the wake; if the peripheral overflow flag is set
at the check, the flag is cleared (and only that bit), `timer_overflow_count`
is incremented exactly once and the reporter is invoked with the fresh
counter values; if the flag is clear, neither `timer_overflow_count`, nor
the flag, nor the reporter state (`last_print_time`, emitted output) is
touched. -/
theorem loop_iteration_contract (s : SysState) (hw : Nat) :
    (loopIter s hw).wfe_wake_count = (s.wfe_wake_count + 1) % U32 ∧
    ((s.ists ||| hw) &&& TMR_ISTS_OVFIF ≠ 0 →
      (loopIter s hw).ists = (s.ists ||| hw) &&& NOT_OVFIF ∧
      (loopIter s hw).ists &&& TMR_ISTS_OVFIF = 0 ∧
      (loopIter s hw).timer_overflow_count = (s.timer_overflow_count + 1) % U32 ∧
      (loopIter s hw).last_print_time =
        (print_runtime_stats ((s.timer_overflow_count + 1) % U32)
          ((s.wfe_wake_count + 1) % U32) s.last_print_time).1 ∧
      (loopIter s hw).out = s.out ++
        (print_runtime_stats ((s.timer_overflow_count + 1) % U32)
          ((s.wfe_wake_count + 1) % U32) s.last_print_time).2.toList) ∧
    ((s.ists ||| hw) &&& TMR_ISTS_OVFIF = 0 →
      (loopIter s hw).timer_overflow_count = s.timer_overflow_count ∧
      (loopIter s hw).ists = s.ists ||| hw ∧
      (loopIter s hw).last_print_time = s.last_print_time ∧
      (loopIter s hw).out = s.out) := by
  simp only [loopIter]
  by_cases h : (s.ists ||| hw) &&& TMR_ISTS_OVFIF ≠ 0
  · rw [if_pos h]
    exact ⟨rfl, fun _ => ⟨rfl, land_clear_ovfif _, rfl, rfl, rfl⟩, fun hc => absurd hc h⟩
  · rw [if_neg h]
    exact ⟨rfl, fun hflag => absurd hflag h, fun _ => ⟨rfl, rfl, rfl, rfl⟩⟩

theorem loop_iteration_contract_witness :
    ((initState.ists ||| 1) &&& TMR_ISTS_OVFIF ≠ 0) ∧
    (loopIter initState 1).wfe_wake_count = (initState.wfe_wake_count + 1) % U32 ∧
    (loopIter initState 1).ists &&& TMR_ISTS_OVFIF = 0 ∧
    (loopIter initState 1).timer_overflow_count = (initState.timer_overflow_count + 1) % U32 :=
  ⟨by decide,
    (loop_iteration_contract initState 1).1,
    ((loop_iteration_contract initState 1).2.1 (by decide)).2.1,
    ((loop_iteration_contract initState 1).2.1 (by decide)).2.2.1⟩

/-- C6: `system_init`, after configuring all peripherals and enabling
SEVONPEND, unconditionally executes one `__SEV()` immediately followed by
one throwaway `__WFE()` before the main loop; the drain's `__WFE()` returns
immediately (the latch was just set) and leaves the event latch clear for
every prior latch state, so a wait-for-event executed after the drain with
no intervening event does not return immediately but sleeps until an actual
event occurs. -/
theorem system_init_drain_contract (e : CrmEnv) (latch0 : Bool) :
    (system_init e latch0).actions =
      [InitAction.crmCfg, InitAction.gpioCfg, InitAction.timerCfg, InitAction.usartCfg,
        InitAction.setSevonpend, InitAction.sevInstr, InitAction.wfeInstr] ∧
    (system_init e latch0).sevonpend = true ∧
    (system_init e latch0).drainWfeSlept = false ∧
    (system_init e latch0).latch = false ∧
    (wfe (system_init e latch0).latch).1 = true :=
  ⟨rfl, rfl, rfl, rfl, rfl⟩

/-- C7: with `wfe_wake_count = 0` the reporter takes only the
division-free path: the result is fully described by an expression in which
no division occurs and the efficiency field is `none` (omitted) whenever a
line is emitted; in particular no divide-by-zero fault is possible. -/
theorem reporter_zero_wakes_no_division (toc lpt : Nat) :
    print_runtime_stats toc 0 lpt =
      if usub32 toc lpt ≥ 5 then (toc, some ⟨toc, 0, none⟩) else (lpt, none) := by
  simp only [print_runtime_stats]
  split_ifs with h h0
  · exact absurd h0 (by norm_num)
  · rfl
  · rfl

/-- C8: for every 32-bit unsigned value, `usart_put_uint` emits exactly the
standard base-10 representation: it equals the spec's standard rendering,
writes the single character `0` for zero, and otherwise starts with a
nonzero most significant digit (no leading zeros). -/
theorem usart_put_uint_decimal (v : Nat) (hv : v < U32) :
    usart_put_uint v = spec_decimal v ∧
    (v = 0 → usart_put_uint v = [Char.ofNat 48]) ∧
    (v ≠ 0 → (usart_put_uint v).head? ≠ some (Char.ofNat 48)) := by
  refine ⟨?_, ?_, fun h => usart_put_uint_head_ne_zero v h⟩
  · by_cases h : v = 0
    · subst h
      rfl
    · rw [usart_put_uint, if_neg h, spec_decimal, if_neg h, usart_put_uint_loop_eq]
      simp
  · intro h
    subst h
    rfl

theorem usart_put_uint_decimal_witness :
    (120 : Nat) < U32 ∧ usart_put_uint 120 = spec_decimal 120 ∧
    ((120 : Nat) ≠ 0 → (usart_put_uint 120).head? ≠ some (Char.ofNat 48)) :=
  ⟨by decide, (usart_put_uint_decimal 120 (by decide)).1,
    (usart_put_uint_decimal 120 (by decide)).2.2⟩

/-- C9: `system_init` discards the status returned by `crm_config`: for
every hardware behaviour — and all four statuses `CRM_OK`,
`CRM_ERR_HEXT_TIMEOUT`, `CRM_ERR_PLL_TIMEOUT`, `CRM_ERR_SWITCH_TIMEOUT`
are realizable outcomes of `crm_config` — the remaining peripheral
configuration, the SEVONPEND enable, the drain and the entry into the main
loop proceed identically, with no error branch taken. -/
theorem crm_status_discarded (e : CrmEnv) (latch0 : Bool) :
    (system_init e latch0).status = crm_config e ∧
    (system_init e latch0).actions =
      [InitAction.crmCfg, InitAction.gpioCfg, InitAction.timerCfg, InitAction.usartCfg,
        InitAction.setSevonpend, InitAction.sevInstr, InitAction.wfeInstr] ∧
    (system_init e latch0).latch = false ∧
    (system_init e latch0).drainWfeSlept = false ∧
    (∃ e1 : CrmEnv, crm_config e1 = CrmStatus.errHextTimeout) ∧
    (∃ e2 : CrmEnv, crm_config e2 = CrmStatus.errPllTimeout) ∧
    (∃ e3 : CrmEnv, crm_config e3 = CrmStatus.errSwitchTimeout) ∧
    (∃ e4 : CrmEnv, crm_config e4 = CrmStatus.ok) :=
  ⟨rfl, rfl, rfl, rfl, ⟨⟨true, none, none, none⟩, rfl⟩, ⟨⟨false, none, none, none⟩, rfl⟩,
    ⟨⟨false, none, some 0, none⟩, rfl⟩, ⟨⟨false, none, some 0, some 0⟩, rfl⟩⟩

/-- C10 (amended): the reporter, when invoked from the main loop, receives
the post-increment wake count; in every run with fewer than `2^32` total
wakes this value equals the positive number of wakes so far, hence
`wfe_wake_count ≥ 1` at entry and the zero-wake branch is not reached; the
branch is reachable only at exact wraparound of the wake counter (see the
counterexample). -/
theorem reporter_entry_wake_count_positive (t : List Nat) (hw : Nat)
    (ht : ∀ h ∈ t, h = 0 ∨ h = 1) (hlen : t.length + 1 < U32) :
    (loopIter (run initState t) hw).wfe_wake_count = t.length + 1 ∧
    1 ≤ (loopIter (run initState t) hw).wfe_wake_count := by
  have h := run_counts t initState ht rfl U32_pos U32_pos
  have hwwc : (run initState t).wfe_wake_count = t.length := by
    rw [h.1]
    show (0 + t.length) % U32 = t.length
    rw [Nat.zero_add]
    exact Nat.mod_eq_of_lt (by omega)
  have hstep : (loopIter (run initState t) hw).wfe_wake_count =
      ((run initState t).wfe_wake_count + 1) % U32 := by
    simp only [loopIter]
    split_ifs <;> rfl
  rw [hstep, hwwc, Nat.mod_eq_of_lt hlen]
  exact ⟨rfl, by omega⟩

theorem reporter_entry_wake_count_positive_witness :
    (∀ h ∈ ([0] : List Nat), h = 0 ∨ h = 1) ∧ ([0] : List Nat).length + 1 < U32 ∧
    1 ≤ (loopIter (run initState [0]) 1).wfe_wake_count :=
  ⟨by decide, by decide,
    (reporter_entry_wake_count_positive [0] 1 (by decide) (by decide)).2⟩

/-- C10 counterexample: after 4 genuine events and `2^32 - 5` spurious
wakes, the next genuine wake wraps the wake counter to `0` and invokes the
reporter from the main loop, which emits a line with wake count `0` and the
efficiency field omitted — the `wfe_wake_count == 0` branch is reachable
from the main loop. -/
theorem reporter_entered_with_zero_wakes_cex :
    (run initState
      (List.replicate 4 1 ++ (List.replicate (U32 - 5) 0 ++ [1]))).wfe_wake_count = 0 ∧
    (run initState
      (List.replicate 4 1 ++ (List.replicate (U32 - 5) 0 ++ [1]))).out = [⟨5, 0, none⟩] := by
  have h4 : run initState (List.replicate 4 1) = ⟨4, 4, 0, 0, []⟩ := by decide
  have hs : run initState (List.replicate 4 1 ++ (List.replicate (U32 - 5) 0 ++ [1])) =
      ⟨5, 0, 5, 0, [⟨5, 0, none⟩]⟩ := by
    rw [run_append, h4, run_append,
      spurious_run (U32 - 5) ⟨4, 4, 0, 0, []⟩ rfl (by norm_num [U32])]
    decide
  rw [hs]
  exact ⟨rfl, rfl⟩

end AT32F421
